import Mathlib

/-!
Shallow embedding of the libristretto255 x86_64 field backend
(src/arch/x86_64/f_impl.h together with the f_arithmetic part appended to it)
and of the error-tag helpers of include/ristretto255.h.

Conventions of the embedding:
* `gf_25519_t` has RISTRETTO255_FIELD_LIMBS = 40/8 = 5 limbs of `uint64_t`
  (include/ristretto255.h), with LIMB_PLACE_VALUE(i) = 51 for every limb
  (f_impl.h) and the identity limb permutation LIMBPERM on x86_64.
  A limb is embedded as a `Nat`; every C operation that can wrap a
  `uint64_t` is written with an explicit `% 2 ^ 64`; operations whose
  result provably fits 64 bits for all inputs (mask-and-add chains bounded
  by 2^52 + small) are written without the redundant wrap.
* `x & ((1 << k) - 1)` on unsigned words is written `% 2 ^ k`, and
  `x >> k` is written `/ 2 ^ k`; where masks interact with the all-ones /
  all-zero `mask_t` values the Lean `&&&` (Nat.land) is kept literally.
* signed double words (`__int128_t`) are embedded as `Int`; the arithmetic
  right shift `>> k` of a signed value is floor division `/ 2 ^ k`
  (Lean's `Int` division is Euclidean, which is floor for a positive
  divisor), and `& ((1 << k) - 1)` of a two's complement value is the
  non-negative `% 2 ^ k`.
* the 5-iteration limb loops and the 32-iteration byte loops are unrolled;
  the byte loops have a statically determined fetch schedule (the `fill`
  counter never depends on data), which is reproduced literally below.
-/

namespace Ristretto255

/-- The field prime p = 2^255 - 19. -/
def p25519 : Nat := 2 ^ 255 - 19

/-- Galois field element `gf_25519_t`: five 64-bit limbs, 51-bit place values. -/
structure Gf where
  l0 : Nat
  l1 : Nat
  l2 : Nat
  l3 : Nat
  l4 : Nat
deriving DecidableEq

/-- Integer value represented by a field element: Σ limb_i · 2^(51·i). -/
def val (a : Gf) : Nat :=
  a.l0 + a.l1 * 2 ^ 51 + a.l2 * 2 ^ 102 + a.l3 * 2 ^ 153 + a.l4 * 2 ^ 204

/-- `MODULUS = FIELD_LITERAL(0x7ffffffffffed, 0x7ffffffffffff, 0x7ffffffffffff,
0x7ffffffffffff, 0x7ffffffffffff)` from the f_arithmetic part of the source
(0x7ffffffffffed = 2^51 - 19, 0x7ffffffffffff = 2^51 - 1). -/
def MODULUS : Gf :=
  ⟨0x7ffffffffffed, 0x7ffffffffffff, 0x7ffffffffffff, 0x7ffffffffffff, 0x7ffffffffffff⟩

/-- Modelled from the spec: `word_is_zero` lives in constant_time.h, which is
not under src/. The Wordops component provides a constant-time equality-to-zero
test on a 64-bit word returning the all-ones mask when the word is zero and the
all-zeros mask otherwise. -/
def word_is_zero (a : Nat) : Nat := if a = 0 then 2 ^ 64 - 1 else 0

/-- `gf_add_RAW`: raw limb-wise addition (wrapping `uint64_t` addition). -/
def gf_add_RAW (a b : Gf) : Gf :=
  ⟨(a.l0 + b.l0) % 2 ^ 64, (a.l1 + b.l1) % 2 ^ 64, (a.l2 + b.l2) % 2 ^ 64,
   (a.l3 + b.l3) % 2 ^ 64, (a.l4 + b.l4) % 2 ^ 64⟩

/-- Two's complement subtraction of 64-bit words: `x - y` on `uint64_t`. -/
def sub64 (x y : Nat) : Nat := (x + (2 ^ 64 - y % 2 ^ 64)) % 2 ^ 64

/-- `gf_sub_RAW`: raw limb-wise subtraction (wrapping `uint64_t` subtraction). -/
def gf_sub_RAW (a b : Gf) : Gf :=
  ⟨sub64 a.l0 b.l0, sub64 a.l1 b.l1, sub64 a.l2 b.l2, sub64 a.l3 b.l3, sub64 a.l4 b.l4⟩

/-- `gf_bias(a, amt)`: limb 0 gains `(amt << 52) - 38*amt`, the others gain
`(amt << 52) - 2*amt`, all computed in wrapping `uint64_t` arithmetic.
The C parameter is an `int`; the library only ever biases by small positive
amounts, and the claims under verification restrict to `amt ≥ 0`, so the
amount is embedded as a `Nat`. -/
def gf_bias (a : Gf) (amt : Nat) : Gf :=
  let c0 := (amt * 2 ^ 52 % 2 ^ 64 + (2 ^ 64 - 38 * amt % 2 ^ 64)) % 2 ^ 64
  let ci := (amt * 2 ^ 52 % 2 ^ 64 + (2 ^ 64 - 2 * amt % 2 ^ 64)) % 2 ^ 64
  ⟨(a.l0 + c0) % 2 ^ 64, (a.l1 + ci) % 2 ^ 64, (a.l2 + ci) % 2 ^ 64,
   (a.l3 + ci) % 2 ^ 64, (a.l4 + ci) % 2 ^ 64⟩

/-- `gf_weak_reduce`: one carry propagation; the loop runs i = 4,3,2,1 reading
the not-yet-updated lower neighbour, and `tmp` saves the original top carry,
so every new limb is a function of the original limbs.  Each sum is at most
(2^51 - 1) + 19·(2^13 - 1) and cannot wrap 64 bits. -/
def gf_weak_reduce (a : Gf) : Gf :=
  let tmp := a.l4 / 2 ^ 51
  { l4 := a.l4 % 2 ^ 51 + a.l3 / 2 ^ 51
    l3 := a.l3 % 2 ^ 51 + a.l2 / 2 ^ 51
    l2 := a.l2 % 2 ^ 51 + a.l1 / 2 ^ 51
    l1 := a.l1 % 2 ^ 51 + a.l0 / 2 ^ 51
    l0 := a.l0 % 2 ^ 51 + tmp * 19 }

/-- First loop of `gf_strong_reduce`: compute `a - MODULUS` limb-wise with a
signed double-word borrow chain (`dsword_t scarry`); each limb keeps the low
51 bits of the running scarry and the scarry is arithmetically shifted right
by 51.  Returns the masked limbs and the final scarry (0 or -1). -/
def gf_reduce_sub (a : Gf) : Gf × Int :=
  let s0 : Int := 0 + a.l0 - MODULUS.l0
  let s1 : Int := s0 / 2 ^ 51 + a.l1 - MODULUS.l1
  let s2 : Int := s1 / 2 ^ 51 + a.l2 - MODULUS.l2
  let s3 : Int := s2 / 2 ^ 51 + a.l3 - MODULUS.l3
  let s4 : Int := s3 / 2 ^ 51 + a.l4 - MODULUS.l4
  (⟨(s0 % 2 ^ 51).toNat, (s1 % 2 ^ 51).toNat, (s2 % 2 ^ 51).toNat,
    (s3 % 2 ^ 51).toNat, (s4 % 2 ^ 51).toNat⟩, s4 / 2 ^ 51)

/-- Second loop of `gf_strong_reduce`: add `scarry_0 & MODULUS` back with an
unsigned double-word carry chain (`dword_t carry`); `scarry_0` is the final
scarry truncated to a 64-bit word (all-ones when the scarry was -1).  The
final carry off the top 51-bit limb is dropped.  The unsigned 128-bit carry
sums are at most 2^52-ish and cannot wrap. -/
def gf_reduce_add_back (t : Gf) (scarry : Int) : Gf :=
  let scarry0 : Nat := (scarry % 2 ^ 64).toNat
  let u0 := t.l0 + (scarry0 &&& MODULUS.l0)
  let u1 := u0 / 2 ^ 51 + t.l1 + (scarry0 &&& MODULUS.l1)
  let u2 := u1 / 2 ^ 51 + t.l2 + (scarry0 &&& MODULUS.l2)
  let u3 := u2 / 2 ^ 51 + t.l3 + (scarry0 &&& MODULUS.l3)
  let u4 := u3 / 2 ^ 51 + t.l4 + (scarry0 &&& MODULUS.l4)
  ⟨u0 % 2 ^ 51, u1 % 2 ^ 51, u2 % 2 ^ 51, u3 % 2 ^ 51, u4 % 2 ^ 51⟩

/-- `gf_strong_reduce`: weak reduction, then conditional subtraction of p. -/
def gf_strong_reduce (a : Gf) : Gf :=
  let w := gf_weak_reduce a
  gf_reduce_add_back (gf_reduce_sub w).1 (gf_reduce_sub w).2

/-- `gf_add`: raw addition followed by a weak reduction. -/
def gf_add (a b : Gf) : Gf := gf_weak_reduce (gf_add_RAW a b)

/-- `gf_sub`: raw subtraction, bias by 2, then weak reduction. -/
def gf_sub (a b : Gf) : Gf := gf_weak_reduce (gf_bias (gf_sub_RAW a b) 2)

/-- `gf_eq`: strong-reduce the difference, OR the limbs together, and test the
word for zero. -/
def gf_eq (a b : Gf) : Nat :=
  let c := gf_strong_reduce (gf_sub a b)
  word_is_zero ((((c.l0 ||| c.l1) ||| c.l2) ||| c.l3) ||| c.l4)

/-- `gf_hibit`: strong-reduce `x + x` and return `-(limb0 & 1)` as a 64-bit
mask (all-ones iff the low bit is set). -/
def gf_hibit (x : Gf) : Nat :=
  let y := gf_strong_reduce (gf_add x x)
  (2 ^ 64 - (y.l0 &&& 1)) % 2 ^ 64

/-- `gf_lobit`: strong-reduce a copy of `x` and return `-(limb0 & 1)` as a
64-bit mask. -/
def gf_lobit (x : Gf) : Nat :=
  let y := gf_strong_reduce x
  (2 ^ 64 - (y.l0 &&& 1)) % 2 ^ 64

/-- A 32-byte wire string `uint8_t serial[SER_BYTES]`; byte j has weight
2^(8·j) in the represented little-endian value. -/
structure Bytes where
  b0 : Nat
  b1 : Nat
  b2 : Nat
  b3 : Nat
  b4 : Nat
  b5 : Nat
  b6 : Nat
  b7 : Nat
  b8 : Nat
  b9 : Nat
  b10 : Nat
  b11 : Nat
  b12 : Nat
  b13 : Nat
  b14 : Nat
  b15 : Nat
  b16 : Nat
  b17 : Nat
  b18 : Nat
  b19 : Nat
  b20 : Nat
  b21 : Nat
  b22 : Nat
  b23 : Nat
  b24 : Nat
  b25 : Nat
  b26 : Nat
  b27 : Nat
  b28 : Nat
  b29 : Nat
  b30 : Nat
  b31 : Nat
deriving DecidableEq

/-- Little-endian integer value of a 32-byte string. -/
def bytesVal (s : Bytes) : Nat :=
  s.b0 + s.b1 * 2 ^ 8 + s.b2 * 2 ^ 16 + s.b3 * 2 ^ 24 + s.b4 * 2 ^ 32 +
  s.b5 * 2 ^ 40 + s.b6 * 2 ^ 48 + s.b7 * 2 ^ 56 + s.b8 * 2 ^ 64 +
  s.b9 * 2 ^ 72 + s.b10 * 2 ^ 80 + s.b11 * 2 ^ 88 + s.b12 * 2 ^ 96 +
  s.b13 * 2 ^ 104 + s.b14 * 2 ^ 112 + s.b15 * 2 ^ 120 + s.b16 * 2 ^ 128 +
  s.b17 * 2 ^ 136 + s.b18 * 2 ^ 144 + s.b19 * 2 ^ 152 + s.b20 * 2 ^ 160 +
  s.b21 * 2 ^ 168 + s.b22 * 2 ^ 176 + s.b23 * 2 ^ 184 + s.b24 * 2 ^ 192 +
  s.b25 * 2 ^ 200 + s.b26 * 2 ^ 208 + s.b27 * 2 ^ 216 + s.b28 * 2 ^ 224 +
  s.b29 * 2 ^ 232 + s.b30 * 2 ^ 240 + s.b31 * 2 ^ 248

/-- Byte-packing loop of `gf_serialize`, unrolled.  The `fill`/`j` schedule is
static: limb 0 enters the (128-bit, non-wrapping) buffer before byte 0, limb 1
before byte 6 with 3 bits of limb 0 still pending (shift 2^3), limb 2 before
byte 12 (shift 2^6), limb 3 before byte 19 (shift 2^1) and limb 4 before
byte 25 (shift 2^4).  `buffer |= limb << fill` is a disjoint OR (the buffer
holds fewer than `fill` significant bits at each fetch) and is written as an
addition; `serial[i] = (uint8_t) buffer` is `% 2^8` and `buffer >>= 8` is
`/ 2^8`. -/
def pack (red : Gf) : Bytes :=
  let q0 := red.l0
  let s0 := q0 % 2 ^ 8
  let q1 := q0 / 2 ^ 8
  let s1 := q1 % 2 ^ 8
  let q2 := q1 / 2 ^ 8
  let s2 := q2 % 2 ^ 8
  let q3 := q2 / 2 ^ 8
  let s3 := q3 % 2 ^ 8
  let q4 := q3 / 2 ^ 8
  let s4 := q4 % 2 ^ 8
  let q5 := q4 / 2 ^ 8
  let s5 := q5 % 2 ^ 8
  let q6 := q5 / 2 ^ 8 + red.l1 * 2 ^ 3
  let s6 := q6 % 2 ^ 8
  let q7 := q6 / 2 ^ 8
  let s7 := q7 % 2 ^ 8
  let q8 := q7 / 2 ^ 8
  let s8 := q8 % 2 ^ 8
  let q9 := q8 / 2 ^ 8
  let s9 := q9 % 2 ^ 8
  let q10 := q9 / 2 ^ 8
  let s10 := q10 % 2 ^ 8
  let q11 := q10 / 2 ^ 8
  let s11 := q11 % 2 ^ 8
  let q12 := q11 / 2 ^ 8 + red.l2 * 2 ^ 6
  let s12 := q12 % 2 ^ 8
  let q13 := q12 / 2 ^ 8
  let s13 := q13 % 2 ^ 8
  let q14 := q13 / 2 ^ 8
  let s14 := q14 % 2 ^ 8
  let q15 := q14 / 2 ^ 8
  let s15 := q15 % 2 ^ 8
  let q16 := q15 / 2 ^ 8
  let s16 := q16 % 2 ^ 8
  let q17 := q16 / 2 ^ 8
  let s17 := q17 % 2 ^ 8
  let q18 := q17 / 2 ^ 8
  let s18 := q18 % 2 ^ 8
  let q19 := q18 / 2 ^ 8 + red.l3 * 2 ^ 1
  let s19 := q19 % 2 ^ 8
  let q20 := q19 / 2 ^ 8
  let s20 := q20 % 2 ^ 8
  let q21 := q20 / 2 ^ 8
  let s21 := q21 % 2 ^ 8
  let q22 := q21 / 2 ^ 8
  let s22 := q22 % 2 ^ 8
  let q23 := q22 / 2 ^ 8
  let s23 := q23 % 2 ^ 8
  let q24 := q23 / 2 ^ 8
  let s24 := q24 % 2 ^ 8
  let q25 := q24 / 2 ^ 8 + red.l4 * 2 ^ 4
  let s25 := q25 % 2 ^ 8
  let q26 := q25 / 2 ^ 8
  let s26 := q26 % 2 ^ 8
  let q27 := q26 / 2 ^ 8
  let s27 := q27 % 2 ^ 8
  let q28 := q27 / 2 ^ 8
  let s28 := q28 % 2 ^ 8
  let q29 := q28 / 2 ^ 8
  let s29 := q29 % 2 ^ 8
  let q30 := q29 / 2 ^ 8
  let s30 := q30 % 2 ^ 8
  let q31 := q30 / 2 ^ 8
  let s31 := q31 % 2 ^ 8
  ⟨s0, s1, s2, s3, s4, s5, s6, s7, s8, s9, s10, s11, s12, s13, s14, s15, s16,
   s17, s18, s19, s20, s21, s22, s23, s24, s25, s26, s27, s28, s29, s30, s31⟩

/-- `gf_serialize`: strong-reduce, then pack the limbs little-endian into 32
bytes.  The `with_hibit` parameter only drives a debug assertion in the C
source and does not affect the output bytes. -/
def gf_serialize (x : Gf) (_with_hibit : Bool) : Bytes :=
  pack (gf_strong_reduce x)

/-- Limb-unpacking loop of `gf_deserialize`, unrolled.  The byte-fetch
schedule is static: limb 0 takes bytes 0-6, limb 1 bytes 7-12 (first byte
shifted by the 5 pending bits), limb 2 bytes 13-19, limb 3 bytes 20-25,
limb 4 bytes 26-31; byte 31 is masked with `~hi_nmask` (within 8 bits:
`&&& (2^8 - 1 - hi_nmask)` for the `uint8_t` parameter `hi_nmask < 2^8`).
`buffer |= serial[j] << fill` is a disjoint OR, written as an addition.
Limbs 0-3 are masked to 51 bits (`LIMB_MASK`); limb 4 keeps the whole
remaining 52-bit buffer, so after the final `buffer >>= 51` the leftover
buffer is `limb4 / 2^51` (bit 255 of the masked input). -/
def deser_limbs (s : Bytes) (hi_nmask : Nat) : Gf :=
  let b31 := s.b31 &&& (2 ^ 8 - 1 - hi_nmask)
  let buf0 := s.b0 + s.b1 * 2 ^ 8 + s.b2 * 2 ^ 16 + s.b3 * 2 ^ 24 +
    s.b4 * 2 ^ 32 + s.b5 * 2 ^ 40 + s.b6 * 2 ^ 48
  let buf1 := buf0 / 2 ^ 51 + s.b7 * 2 ^ 5 + s.b8 * 2 ^ 13 + s.b9 * 2 ^ 21 +
    s.b10 * 2 ^ 29 + s.b11 * 2 ^ 37 + s.b12 * 2 ^ 45
  let buf2 := buf1 / 2 ^ 51 + s.b13 * 2 ^ 2 + s.b14 * 2 ^ 10 + s.b15 * 2 ^ 18 +
    s.b16 * 2 ^ 26 + s.b17 * 2 ^ 34 + s.b18 * 2 ^ 42 + s.b19 * 2 ^ 50
  let buf3 := buf2 / 2 ^ 51 + s.b20 * 2 ^ 7 + s.b21 * 2 ^ 15 + s.b22 * 2 ^ 23 +
    s.b23 * 2 ^ 31 + s.b24 * 2 ^ 39 + s.b25 * 2 ^ 47
  let buf4 := buf3 / 2 ^ 51 + s.b26 * 2 ^ 4 + s.b27 * 2 ^ 12 + s.b28 * 2 ^ 20 +
    s.b29 * 2 ^ 28 + s.b30 * 2 ^ 36 + b31 * 2 ^ 44
  ⟨buf0 % 2 ^ 51, buf1 % 2 ^ 51, buf2 % 2 ^ 51, buf3 % 2 ^ 51, buf4⟩

/-- Canonicity borrow chain of `gf_deserialize`: per limb,
`scarry = (scarry + limb - MODULUS_limb) >> (8·sizeof(word_t))` with a signed
128-bit scarry and an arithmetic shift by 64; it only depends on the unpacked
limbs, so it is factored out on the limb vector. -/
def deser_scarry (x : Gf) : Int :=
  let s0 : Int := 0 + x.l0 - MODULUS.l0
  let s1 : Int := s0 / 2 ^ 64 + x.l1 - MODULUS.l1
  let s2 : Int := s1 / 2 ^ 64 + x.l2 - MODULUS.l2
  let s3 : Int := s2 / 2 ^ 64 + x.l3 - MODULUS.l3
  let s4 : Int := s3 / 2 ^ 64 + x.l4 - MODULUS.l4
  s4 / 2 ^ 64

/-- `gf_deserialize`: unpack the limbs, then return them together with the
success mask `succ & word_is_zero(buffer) & ~word_is_zero(scarry)`, where
`succ = with_hibit ? -1 : ~gf_hibit(x)`, `buffer` is the leftover top bit
`limb4 >> 51` and `scarry` is the final borrow (both truncated to a 64-bit
word when passed to `word_is_zero`). -/
def gf_deserialize (s : Bytes) (with_hibit : Bool) (hi_nmask : Nat) :
    Gf × Nat :=
  let x := deser_limbs s hi_nmask
  let succ0 : Nat := if with_hibit then 2 ^ 64 - 1 else (2 ^ 64 - 1) - gf_hibit x
  (x, succ0 &&& word_is_zero (x.l4 / 2 ^ 51 % 2 ^ 64) &&&
      ((2 ^ 64 - 1) - word_is_zero ((deser_scarry x % 2 ^ 64).toNat)))

/-- `RISTRETTO_SUCCESS = -1` from the `ristretto_error_t` enum. -/
def RISTRETTO_SUCCESS : Int := -1

/-- `RISTRETTO_FAILURE = 0` from the `ristretto_error_t` enum. -/
def RISTRETTO_FAILURE : Int := 0

/-- Truncation of a C enum / signed value to a 64-bit `ristretto_word_t`. -/
def wordOfInt (e : Int) : Nat := (e % 2 ^ 64).toNat

/-- `ristretto_successful(e)`: XOR the word-cast of `e` with the word-cast of
`RISTRETTO_SUCCESS`, subtract 1 in a 128-bit unsigned double word, and shift
right by 64. -/
def ristretto_successful (e : Int) : Nat :=
  ((wordOfInt e ^^^ wordOfInt RISTRETTO_SUCCESS) + (2 ^ 128 - 1)) % 2 ^ 128 / 2 ^ 64

/-! ### Value-level model of the inverse square root chain

`gf_isr` (in the f_arithmetic part of the source) is built from `gf_mul`,
`gf_sqr`, `gf_sqrn`, `gf_eq`, `gf_add` and `constant_time_select`.  The
multiplication/squaring primitives are the per-architecture back-end that the
spec declares out of scope ("consume weakly-reduced inputs and produce
weakly-reduced outputs" representing the product mod p), and
`constant_time_select` lives in constant_time.h, also not under src/; the
claim about `gf_isr` concerns the represented residues only, so the chain is
modelled on residues: a field element is a `Nat` smaller than p. -/

/-- Modelled from the spec: `gf_mul` is the back-end multiplication mod p. -/
def fmul (x y : Nat) : Nat := x * y % p25519

/-- Modelled from the spec: `gf_sqr` is the back-end squaring mod p. -/
def fsqr (x : Nat) : Nat := x * x % p25519

/-- Modelled from the spec: `gf_sqrn(x, n)` is n successive squarings. -/
def fsqrn (x : Nat) : Nat → Nat
  | 0 => x
  | n + 1 => fsqrn (fsqr x) n

/-- Value of the `SQRT_MINUS_ONE = FIELD_LITERAL(0x61b274a0ea0b0,
0x0d5a5fc8f189d, 0x7ef5e9cbd0c60, 0x78595a6804c9e, 0x2b8324804fc1d)`
constant: Σ limb_i · 2^(51·i). -/
def SQRT_MINUS_ONE : Nat :=
  0x61b274a0ea0b0 + 0x0d5a5fc8f189d * 2 ^ 51 + 0x7ef5e9cbd0c60 * 2 ^ 102 +
    0x78595a6804c9e * 2 ^ 153 + 0x2b8324804fc1d * 2 ^ 204

/-- `gf_isr` on residues: the addition chain of the source, line by line
(L0..L3 are the four temporaries; `gf_add(&L1,&L3,&ONE)` is `(L3 + 1) % p`;
`gf_eq` on residues is equality; `constant_time_select(&L2, &SQRT_MINUS_ONE,
&ONE, ., qr, .)` picks ONE when `qr` is set and SQRT_MINUS_ONE otherwise).
Returns the output residue `a` and the success mask as a `Bool`. -/
def gf_isr (x : Nat) : Nat × Bool :=
  let L0 := fsqr x
  let L1 := fmul L0 x
  let L0 := fsqr L1
  let L1 := fmul L0 x
  let L0 := fsqrn L1 3
  let L2 := fmul L0 L1
  let L0 := fsqrn L2 6
  let L1 := fmul L2 L0
  let L2 := fsqr L1
  let L0 := fmul L2 x
  let L2 := fsqrn L0 12
  let L0 := fmul L2 L1
  let L2 := fsqrn L0 25
  let L3 := fmul L2 L0
  let L2 := fsqrn L3 25
  let L1 := fmul L2 L0
  let L2 := fsqrn L1 50
  let L0 := fmul L2 L3
  let L2 := fsqrn L0 125
  let L3 := fmul L2 L0
  let L2 := fsqrn L3 2
  let L0 := fmul L2 x
  let L2 := fsqr L0
  let L3 := fmul L2 x
  let L1 := (L3 + 1) % p25519
  let one := L3 == 1
  let succ := one || (L1 == 0)
  let qr := one || (L3 == SQRT_MINUS_ONE)
  let L2 := if qr then 1 else SQRT_MINUS_ONE
  (fmul L2 L0, succ)

/-! ### Helper lemmas -/

/-- Weak reduction: exact value accounting (the top carry is folded back times
19, i.e. the value drops by `(l4 / 2^51) · (2^255 - 19)`) and output bounds. -/
theorem weak_reduce_spec (a : Gf) (h0 : a.l0 < 2 ^ 64) (h1 : a.l1 < 2 ^ 64)
    (h2 : a.l2 < 2 ^ 64) (h3 : a.l3 < 2 ^ 64) (h4 : a.l4 < 2 ^ 64) :
    val (gf_weak_reduce a) + (a.l4 / 2 ^ 51) * p25519 = val a ∧
    (gf_weak_reduce a).l0 < 2 ^ 51 + 19 * 2 ^ 13 ∧
    (gf_weak_reduce a).l1 < 2 ^ 51 + 2 ^ 13 ∧
    (gf_weak_reduce a).l2 < 2 ^ 51 + 2 ^ 13 ∧
    (gf_weak_reduce a).l3 < 2 ^ 51 + 2 ^ 13 ∧
    (gf_weak_reduce a).l4 < 2 ^ 51 + 2 ^ 13 := by
  simp only [gf_weak_reduce, val, p25519]
  omega

set_option maxHeartbeats 1600000 in
/-- The borrow-chain subtraction loop of `gf_strong_reduce`: on an input whose
limbs satisfy the weak-reduction bounds, it returns `a - p` in 51-bit limbs,
with final scarry -1 exactly when the value was below p (in which case the
limbs represent `a - p + 2^255`). -/
theorem reduce_sub_spec (a : Gf) (h0 : a.l0 < 2 ^ 51 + 19 * 2 ^ 13)
    (h1 : a.l1 < 2 ^ 51 + 2 ^ 13) (h2 : a.l2 < 2 ^ 51 + 2 ^ 13)
    (h3 : a.l3 < 2 ^ 51 + 2 ^ 13) (h4 : a.l4 < 2 ^ 51 + 2 ^ 13) :
    (gf_reduce_sub a).1.l0 < 2 ^ 51 ∧ (gf_reduce_sub a).1.l1 < 2 ^ 51 ∧
    (gf_reduce_sub a).1.l2 < 2 ^ 51 ∧ (gf_reduce_sub a).1.l3 < 2 ^ 51 ∧
    (gf_reduce_sub a).1.l4 < 2 ^ 51 ∧
    (gf_reduce_sub a).2 = (if val a < p25519 then -1 else 0) ∧
    (val a < p25519 → val (gf_reduce_sub a).1 = val a + 2 ^ 255 - p25519) ∧
    (p25519 ≤ val a → val (gf_reduce_sub a).1 = val a - p25519) := by
  simp only [gf_reduce_sub, MODULUS, val, p25519]
  omega

/-- The add-back loop of `gf_strong_reduce` with scarry 0 adds nothing. -/
theorem reduce_add_back_zero (t : Gf) (h0 : t.l0 < 2 ^ 51) (h1 : t.l1 < 2 ^ 51)
    (h2 : t.l2 < 2 ^ 51) (h3 : t.l3 < 2 ^ 51) (h4 : t.l4 < 2 ^ 51) :
    val (gf_reduce_add_back t 0) = val t ∧
    (gf_reduce_add_back t 0).l0 < 2 ^ 51 ∧ (gf_reduce_add_back t 0).l1 < 2 ^ 51 ∧
    (gf_reduce_add_back t 0).l2 < 2 ^ 51 ∧ (gf_reduce_add_back t 0).l3 < 2 ^ 51 ∧
    (gf_reduce_add_back t 0).l4 < 2 ^ 51 := by
  have hz : (((0 : Int) % 2 ^ 64).toNat) = 0 := by decide
  simp only [gf_reduce_add_back, hz, Nat.zero_and, val]
  omega

/-- The add-back loop of `gf_strong_reduce` with scarry -1 adds p and drops
the 2^255 carry off the top. -/
theorem reduce_add_back_neg_one (t : Gf) (h0 : t.l0 < 2 ^ 51) (h1 : t.l1 < 2 ^ 51)
    (h2 : t.l2 < 2 ^ 51) (h3 : t.l3 < 2 ^ 51) (h4 : t.l4 < 2 ^ 51)
    (hge : 2 ^ 255 ≤ val t + p25519) :
    val (gf_reduce_add_back t (-1)) + 2 ^ 255 = val t + p25519 ∧
    (gf_reduce_add_back t (-1)).l0 < 2 ^ 51 ∧
    (gf_reduce_add_back t (-1)).l1 < 2 ^ 51 ∧
    (gf_reduce_add_back t (-1)).l2 < 2 ^ 51 ∧
    (gf_reduce_add_back t (-1)).l3 < 2 ^ 51 ∧
    (gf_reduce_add_back t (-1)).l4 < 2 ^ 51 := by
  have hm : (((-1 : Int) % 2 ^ 64).toNat) = 2 ^ 64 - 1 := by decide
  have ha : (2 ^ 64 - 1 : Nat) &&& MODULUS.l0 = MODULUS.l0 := by decide
  have hb : (2 ^ 64 - 1 : Nat) &&& MODULUS.l1 = MODULUS.l1 := by decide
  simp only [gf_reduce_add_back, hm, ha, hb, MODULUS, val, p25519] at *
  omega

/-- Strong reduction is reduction mod p to canonical 51-bit limbs. -/
theorem strong_reduce_spec (a : Gf) (h0 : a.l0 < 2 ^ 64) (h1 : a.l1 < 2 ^ 64)
    (h2 : a.l2 < 2 ^ 64) (h3 : a.l3 < 2 ^ 64) (h4 : a.l4 < 2 ^ 64) :
    val (gf_strong_reduce a) = val a % p25519 ∧
    (gf_strong_reduce a).l0 < 2 ^ 51 ∧ (gf_strong_reduce a).l1 < 2 ^ 51 ∧
    (gf_strong_reduce a).l2 < 2 ^ 51 ∧ (gf_strong_reduce a).l3 < 2 ^ 51 ∧
    (gf_strong_reduce a).l4 < 2 ^ 51 := by
  obtain ⟨hw, hb0, hb1, hb2, hb3, hb4⟩ := weak_reduce_spec a h0 h1 h2 h3 h4
  set w := gf_weak_reduce a with hwdef
  obtain ⟨hs0, hs1, hs2, hs3, hs4, hsc, hlt, hge⟩ := reduce_sub_spec w hb0 hb1 hb2 hb3 hb4
  have hvw : val w = w.l0 + w.l1 * 2 ^ 51 + w.l2 * 2 ^ 102 + w.l3 * 2 ^ 153 +
      w.l4 * 2 ^ 204 := rfl
  simp only [gf_strong_reduce, ← hwdef]
  by_cases hc : val w < p25519
  · rw [hsc, if_pos hc]
    have hlt' := hlt hc
    obtain ⟨hv, hc0, hc1, hc2, hc3, hc4⟩ :=
      reduce_add_back_neg_one (gf_reduce_sub w).1 hs0 hs1 hs2 hs3 hs4 (by
        simp only [p25519] at hlt' ⊢; omega)
    refine ⟨?_, hc0, hc1, hc2, hc3, hc4⟩
    simp only [p25519] at hw hlt' hv hc ⊢
    omega
  · rw [hsc, if_neg hc]
    have hge' := hge (by omega)
    obtain ⟨hv, hc0, hc1, hc2, hc3, hc4⟩ :=
      reduce_add_back_zero (gf_reduce_sub w).1 hs0 hs1 hs2 hs3 hs4
    refine ⟨?_, hc0, hc1, hc2, hc3, hc4⟩
    simp only [p25519] at hw hge' hv hc ⊢
    omega

/-- A bitwise OR of naturals is zero only when both sides are zero. -/
theorem or_eq_zero {a b : Nat} (h : a ||| b = 0) : a = 0 ∧ b = 0 := by
  constructor
  · by_contra hne
    obtain ⟨i, hi⟩ := Nat.ne_zero_implies_bit_true hne
    have hbit : (a ||| b).testBit i = true := by rw [Nat.testBit_or, hi]; simp
    rw [h] at hbit
    simp [Nat.zero_testBit] at hbit
  · by_contra hne
    obtain ⟨i, hi⟩ := Nat.ne_zero_implies_bit_true hne
    have hbit : (a ||| b).testBit i = true := by rw [Nat.testBit_or, hi]; simp
    rw [h] at hbit
    simp [Nat.zero_testBit] at hbit

/-- The biased raw subtraction of `gf_sub`: on weakly reduced inputs each limb
of `bias(a - b, 2)` equals the exact integer `a_i + C_i - b_i` (no limb goes
negative and nothing wraps), where C_0 = 2^53 - 76 and C_i = 2^53 - 4. -/
theorem bias_sub_raw_spec (a b : Gf) (ha0 : a.l0 < 2 ^ 52) (ha1 : a.l1 < 2 ^ 52)
    (ha2 : a.l2 < 2 ^ 52) (ha3 : a.l3 < 2 ^ 52) (ha4 : a.l4 < 2 ^ 52)
    (hb0 : b.l0 < 2 ^ 52) (hb1 : b.l1 < 2 ^ 52) (hb2 : b.l2 < 2 ^ 52)
    (hb3 : b.l3 < 2 ^ 52) (hb4 : b.l4 < 2 ^ 52) :
    (gf_bias (gf_sub_RAW a b) 2).l0 + b.l0 = a.l0 + (2 ^ 53 - 76) ∧
    (gf_bias (gf_sub_RAW a b) 2).l1 + b.l1 = a.l1 + (2 ^ 53 - 4) ∧
    (gf_bias (gf_sub_RAW a b) 2).l2 + b.l2 = a.l2 + (2 ^ 53 - 4) ∧
    (gf_bias (gf_sub_RAW a b) 2).l3 + b.l3 = a.l3 + (2 ^ 53 - 4) ∧
    (gf_bias (gf_sub_RAW a b) 2).l4 + b.l4 = a.l4 + (2 ^ 53 - 4) := by
  simp only [gf_bias, gf_sub_RAW, sub64]
  refine ⟨by omega, by omega, by omega, by omega, by omega⟩

/-- `gf_sub` on weakly reduced inputs: the bias by 2 adds 2·(2^256 - 38) = 4p,
so the result represents a - b mod p, in weakly reduced limbs. -/
theorem sub_spec (a b : Gf) (ha0 : a.l0 < 2 ^ 52) (ha1 : a.l1 < 2 ^ 52)
    (ha2 : a.l2 < 2 ^ 52) (ha3 : a.l3 < 2 ^ 52) (ha4 : a.l4 < 2 ^ 52)
    (hb0 : b.l0 < 2 ^ 52) (hb1 : b.l1 < 2 ^ 52) (hb2 : b.l2 < 2 ^ 52)
    (hb3 : b.l3 < 2 ^ 52) (hb4 : b.l4 < 2 ^ 52) :
    (gf_sub a b).l0 < 2 ^ 52 ∧ (gf_sub a b).l1 < 2 ^ 52 ∧
    (gf_sub a b).l2 < 2 ^ 52 ∧ (gf_sub a b).l3 < 2 ^ 52 ∧
    (gf_sub a b).l4 < 2 ^ 52 ∧
    (val (gf_sub a b) + val b) % p25519 = val a % p25519 := by
  obtain ⟨he0, he1, he2, he3, he4⟩ :=
    bias_sub_raw_spec a b ha0 ha1 ha2 ha3 ha4 hb0 hb1 hb2 hb3 hb4
  set m := gf_bias (gf_sub_RAW a b) 2 with hm
  have hvm : val m + val b = val a + 4 * p25519 := by
    simp only [val, p25519]
    omega
  obtain ⟨hw, hw0, hw1, hw2, hw3, hw4⟩ :=
    weak_reduce_spec m (by omega) (by omega) (by omega) (by omega) (by omega)
  have hsub : gf_sub a b = gf_weak_reduce m := by rw [gf_sub, hm]
  rw [hsub]
  refine ⟨by omega, by omega, by omega, by omega, by omega, ?_⟩
  simp only [p25519] at hvm hw ⊢
  omega

/-- `gf_eq` on weakly reduced inputs returns the all-ones mask exactly when
the two elements represent the same residue mod p. -/
theorem eq_spec (a b : Gf) (ha0 : a.l0 < 2 ^ 52) (ha1 : a.l1 < 2 ^ 52)
    (ha2 : a.l2 < 2 ^ 52) (ha3 : a.l3 < 2 ^ 52) (ha4 : a.l4 < 2 ^ 52)
    (hb0 : b.l0 < 2 ^ 52) (hb1 : b.l1 < 2 ^ 52) (hb2 : b.l2 < 2 ^ 52)
    (hb3 : b.l3 < 2 ^ 52) (hb4 : b.l4 < 2 ^ 52) :
    gf_eq a b = if val a % p25519 = val b % p25519 then 2 ^ 64 - 1 else 0 := by
  obtain ⟨hc0, hc1, hc2, hc3, hc4, hcv⟩ :=
    sub_spec a b ha0 ha1 ha2 ha3 ha4 hb0 hb1 hb2 hb3 hb4
  obtain ⟨hdv, hd0, hd1, hd2, hd3, hd4⟩ :=
    strong_reduce_spec (gf_sub a b) (by omega) (by omega) (by omega) (by omega) (by omega)
  simp only [gf_eq]
  set d := gf_strong_reduce (gf_sub a b) with hd
  have hval : val d = d.l0 + d.l1 * 2 ^ 51 + d.l2 * 2 ^ 102 + d.l3 * 2 ^ 153 +
      d.l4 * 2 ^ 204 := rfl
  by_cases h : val a % p25519 = val b % p25519
  · rw [if_pos h]
    have hz : val d = 0 := by simp only [p25519] at hdv hcv h ⊢; omega
    have e0 : d.l0 = 0 := by omega
    have e1 : d.l1 = 0 := by omega
    have e2 : d.l2 = 0 := by omega
    have e3 : d.l3 = 0 := by omega
    have e4 : d.l4 = 0 := by omega
    rw [e0, e1, e2, e3, e4]
    simp [word_is_zero]
  · rw [if_neg h]
    have hnz : val d ≠ 0 := by simp only [p25519] at hdv hcv h ⊢; omega
    have hor : (((d.l0 ||| d.l1) ||| d.l2) ||| d.l3) ||| d.l4 ≠ 0 := by
      intro hzero
      obtain ⟨h0123, h4⟩ := or_eq_zero hzero
      obtain ⟨h012, h3⟩ := or_eq_zero h0123
      obtain ⟨h01, h2⟩ := or_eq_zero h012
      obtain ⟨h0, h1⟩ := or_eq_zero h01
      omega
    simp only [word_is_zero, if_neg hor]

/-- The parity of the value of a field element is the parity of limb 0. -/
theorem val_parity (y : Gf) : val y % 2 = y.l0 % 2 := by
  simp only [val]
  omega

/-- The low-bit mask `-(l & 1)` as a 64-bit word, by parity of `l`. -/
theorem neg_low_bit (l : Nat) :
    (2 ^ 64 - (l &&& 1)) % 2 ^ 64 = if l % 2 = 1 then 2 ^ 64 - 1 else 0 := by
  rw [Nat.and_one_is_mod]
  rcases Nat.mod_two_eq_zero_or_one l with h | h <;> rw [h] <;> norm_num

/-- `gf_hibit` on a weakly reduced input is the all-ones mask exactly when the
low bit of the canonical representative of 2·x is set. -/
theorem hibit_spec (x : Gf) (h0 : x.l0 < 2 ^ 52) (h1 : x.l1 < 2 ^ 52)
    (h2 : x.l2 < 2 ^ 52) (h3 : x.l3 < 2 ^ 52) (h4 : x.l4 < 2 ^ 52) :
    gf_hibit x = if 2 * val x % p25519 % 2 = 1 then 2 ^ 64 - 1 else 0 := by
  have hraw : val (gf_add_RAW x x) = 2 * val x ∧ (gf_add_RAW x x).l0 < 2 ^ 64 ∧
      (gf_add_RAW x x).l1 < 2 ^ 64 ∧ (gf_add_RAW x x).l2 < 2 ^ 64 ∧
      (gf_add_RAW x x).l3 < 2 ^ 64 ∧ (gf_add_RAW x x).l4 < 2 ^ 64 := by
    simp only [gf_add_RAW, val]
    omega
  obtain ⟨hrv, hr0, hr1, hr2, hr3, hr4⟩ := hraw
  obtain ⟨hwv, hw0, hw1, hw2, hw3, hw4⟩ :=
    weak_reduce_spec (gf_add_RAW x x) hr0 hr1 hr2 hr3 hr4
  obtain ⟨hsv, hs0, hs1, hs2, hs3, hs4⟩ :=
    strong_reduce_spec (gf_add x x) (by simp only [gf_add]; omega)
      (by simp only [gf_add]; omega) (by simp only [gf_add]; omega)
      (by simp only [gf_add]; omega) (by simp only [gf_add]; omega)
  simp only [gf_hibit]
  set y := gf_strong_reduce (gf_add x x) with hy
  have hmod : val (gf_add x x) % p25519 = 2 * val x % p25519 := by
    have heq : val (gf_add x x) + ((gf_add_RAW x x).l4 / 2 ^ 51) * p25519 =
        2 * val x := by rw [← hrv]; exact hwv
    simp only [p25519] at heq ⊢
    omega
  rw [neg_low_bit, ← val_parity y, hsv, hmod]

/-- `gf_lobit` on a weakly reduced input is the all-ones mask exactly when the
low bit of the canonical representative of x is set. -/
theorem lobit_spec (x : Gf) (h0 : x.l0 < 2 ^ 52) (h1 : x.l1 < 2 ^ 52)
    (h2 : x.l2 < 2 ^ 52) (h3 : x.l3 < 2 ^ 52) (h4 : x.l4 < 2 ^ 52) :
    gf_lobit x = if val x % p25519 % 2 = 1 then 2 ^ 64 - 1 else 0 := by
  obtain ⟨hsv, hs0, hs1, hs2, hs3, hs4⟩ :=
    strong_reduce_spec x (by omega) (by omega) (by omega) (by omega) (by omega)
  simp only [gf_lobit]
  set y := gf_strong_reduce x with hy
  rw [neg_low_bit, ← val_parity y, hsv]

set_option maxHeartbeats 1600000 in
/-- The packing loop emits exactly the base-256 digits of the represented
value: for canonical (51-bit) limbs the little-endian value of the 32 output
bytes is the value of the input, and every byte is below 2^8. -/
theorem pack_spec (red : Gf) (h0 : red.l0 < 2 ^ 51) (h1 : red.l1 < 2 ^ 51)
    (h2 : red.l2 < 2 ^ 51) (h3 : red.l3 < 2 ^ 51) (h4 : red.l4 < 2 ^ 51) :
    bytesVal (pack red) = val red ∧
    (pack red).b0 < 2 ^ 8 ∧ (pack red).b1 < 2 ^ 8 ∧ (pack red).b2 < 2 ^ 8 ∧
    (pack red).b3 < 2 ^ 8 ∧ (pack red).b4 < 2 ^ 8 ∧ (pack red).b5 < 2 ^ 8 ∧
    (pack red).b6 < 2 ^ 8 ∧ (pack red).b7 < 2 ^ 8 ∧ (pack red).b8 < 2 ^ 8 ∧
    (pack red).b9 < 2 ^ 8 ∧ (pack red).b10 < 2 ^ 8 ∧ (pack red).b11 < 2 ^ 8 ∧
    (pack red).b12 < 2 ^ 8 ∧ (pack red).b13 < 2 ^ 8 ∧ (pack red).b14 < 2 ^ 8 ∧
    (pack red).b15 < 2 ^ 8 ∧ (pack red).b16 < 2 ^ 8 ∧ (pack red).b17 < 2 ^ 8 ∧
    (pack red).b18 < 2 ^ 8 ∧ (pack red).b19 < 2 ^ 8 ∧ (pack red).b20 < 2 ^ 8 ∧
    (pack red).b21 < 2 ^ 8 ∧ (pack red).b22 < 2 ^ 8 ∧ (pack red).b23 < 2 ^ 8 ∧
    (pack red).b24 < 2 ^ 8 ∧ (pack red).b25 < 2 ^ 8 ∧ (pack red).b26 < 2 ^ 8 ∧
    (pack red).b27 < 2 ^ 8 ∧ (pack red).b28 < 2 ^ 8 ∧ (pack red).b29 < 2 ^ 8 ∧
    (pack red).b30 < 2 ^ 8 ∧ (pack red).b31 < 2 ^ 8 := by
  simp only [pack, bytesVal, val]
  omega

set_option maxHeartbeats 1600000 in
/-- The 32-byte string with the top byte masked by `~hi_nmask` (the masking
`gf_deserialize` applies to byte 31 before unpacking). -/
def maskTop (s : Bytes) (hn : Nat) : Bytes :=
  ⟨s.b0, s.b1, s.b2, s.b3, s.b4, s.b5, s.b6, s.b7, s.b8, s.b9, s.b10, s.b11,
   s.b12, s.b13, s.b14, s.b15, s.b16, s.b17, s.b18, s.b19, s.b20, s.b21,
   s.b22, s.b23, s.b24, s.b25, s.b26, s.b27, s.b28, s.b29, s.b30,
   s.b31 &&& (2 ^ 8 - 1 - hn)⟩

set_option maxHeartbeats 3200000 in
/-- The unpacking loop recovers the masked little-endian value exactly
(limb 4 keeps the whole remaining buffer, bit 255 included), with limbs 0-3
below 2^51 and limb 4 below 2^52. -/
theorem deser_limbs_spec (s : Bytes) (hn : Nat) (hb0 : s.b0 < 2 ^ 8)
    (hb1 : s.b1 < 2 ^ 8) (hb2 : s.b2 < 2 ^ 8) (hb3 : s.b3 < 2 ^ 8)
    (hb4 : s.b4 < 2 ^ 8) (hb5 : s.b5 < 2 ^ 8) (hb6 : s.b6 < 2 ^ 8)
    (hb7 : s.b7 < 2 ^ 8) (hb8 : s.b8 < 2 ^ 8) (hb9 : s.b9 < 2 ^ 8)
    (hb10 : s.b10 < 2 ^ 8) (hb11 : s.b11 < 2 ^ 8) (hb12 : s.b12 < 2 ^ 8)
    (hb13 : s.b13 < 2 ^ 8) (hb14 : s.b14 < 2 ^ 8) (hb15 : s.b15 < 2 ^ 8)
    (hb16 : s.b16 < 2 ^ 8) (hb17 : s.b17 < 2 ^ 8) (hb18 : s.b18 < 2 ^ 8)
    (hb19 : s.b19 < 2 ^ 8) (hb20 : s.b20 < 2 ^ 8) (hb21 : s.b21 < 2 ^ 8)
    (hb22 : s.b22 < 2 ^ 8) (hb23 : s.b23 < 2 ^ 8) (hb24 : s.b24 < 2 ^ 8)
    (hb25 : s.b25 < 2 ^ 8) (hb26 : s.b26 < 2 ^ 8) (hb27 : s.b27 < 2 ^ 8)
    (hb28 : s.b28 < 2 ^ 8) (hb29 : s.b29 < 2 ^ 8) (hb30 : s.b30 < 2 ^ 8) :
    val (deser_limbs s hn) = bytesVal (maskTop s hn) ∧
    (deser_limbs s hn).l0 < 2 ^ 51 ∧ (deser_limbs s hn).l1 < 2 ^ 51 ∧
    (deser_limbs s hn).l2 < 2 ^ 51 ∧ (deser_limbs s hn).l3 < 2 ^ 51 ∧
    (deser_limbs s hn).l4 < 2 ^ 52 := by
  have hm : s.b31 &&& (2 ^ 8 - 1 - hn) ≤ 2 ^ 8 - 1 - hn := Nat.and_le_right
  simp only [deser_limbs, maskTop, bytesVal, val]
  omega

/-- The borrow chain of `gf_deserialize` ends at -1 exactly when the unpacked
value is canonical (below p); the arithmetic shift is by a full word, so the
running scarry is always 0 or -1 and the chain is a limb-lexicographic
comparison with the modulus. -/
theorem deser_scarry_spec (x : Gf) (h0 : x.l0 < 2 ^ 51) (h1 : x.l1 < 2 ^ 51)
    (h2 : x.l2 < 2 ^ 51) (h3 : x.l3 < 2 ^ 51) (h4 : x.l4 < 2 ^ 52) :
    deser_scarry x = if val x < p25519 then -1 else 0 := by
  simp only [deser_scarry, MODULUS, val, p25519]
  omega

/-- The success-mask combination of `gf_deserialize` on an unpacked limb
vector: all-ones exactly when the leftover top bit is clear, the value is
canonical, and (unless `with_hibit`) the high bit of the value is clear. -/
theorem deser_mask_spec (x : Gf) (wh : Bool) (h0 : x.l0 < 2 ^ 51)
    (h1 : x.l1 < 2 ^ 51) (h2 : x.l2 < 2 ^ 51) (h3 : x.l3 < 2 ^ 51)
    (h4 : x.l4 < 2 ^ 52) :
    ((if wh then 2 ^ 64 - 1 else (2 ^ 64 - 1) - gf_hibit x) &&&
      word_is_zero (x.l4 / 2 ^ 51 % 2 ^ 64) &&&
      ((2 ^ 64 - 1) - word_is_zero ((deser_scarry x % 2 ^ 64).toNat))) =
    if x.l4 / 2 ^ 51 = 0 ∧ val x < p25519 ∧ (wh = true ∨ 2 * val x % p25519 % 2 = 0)
    then 2 ^ 64 - 1 else 0 := by
  have hsc := deser_scarry_spec x h0 h1 h2 h3 h4
  have hhi := hibit_spec x (by omega) (by omega) (by omega) (by omega) (by omega)
  have wscn : word_is_zero (((-1 : Int) % 2 ^ 64).toNat) = 0 := by decide
  have wscz : word_is_zero (((0 : Int) % 2 ^ 64).toNat) = 2 ^ 64 - 1 := by decide
  by_cases hw : wh = true
  · rw [if_pos hw]
    by_cases hl : x.l4 / 2 ^ 51 = 0
    · have wz1 : word_is_zero (x.l4 / 2 ^ 51 % 2 ^ 64) = 2 ^ 64 - 1 := by
        rw [hl]; norm_num [word_is_zero]
      rw [wz1, hsc]
      by_cases hv : val x < p25519
      · rw [if_pos hv, wscn, if_pos ⟨hl, hv, Or.inl hw⟩]
        decide
      · rw [if_neg hv, wscz, if_neg (fun hc => hv hc.2.1), Nat.sub_self, Nat.and_zero]
    · have hl1 : x.l4 / 2 ^ 51 = 1 := by omega
      have wz1 : word_is_zero (x.l4 / 2 ^ 51 % 2 ^ 64) = 0 := by
        rw [hl1]; norm_num [word_is_zero]
      rw [wz1, if_neg (fun hc => hl hc.1), Nat.and_zero, Nat.zero_and]
  · rw [if_neg hw, hhi]
    by_cases hl : x.l4 / 2 ^ 51 = 0
    · have wz1 : word_is_zero (x.l4 / 2 ^ 51 % 2 ^ 64) = 2 ^ 64 - 1 := by
        rw [hl]; norm_num [word_is_zero]
      rw [wz1, hsc]
      by_cases hv : val x < p25519
      · rw [if_pos hv, wscn]
        rcases Nat.mod_two_eq_zero_or_one (2 * val x % p25519) with hp | hp
        · rw [if_neg (by omega : ¬2 * val x % p25519 % 2 = 1),
            if_pos ⟨hl, hv, Or.inr hp⟩]
          decide
        · rw [if_pos hp, if_neg (fun hc => hc.2.2.elim hw (fun hz => by omega))]
          decide
      · rw [if_neg hv, wscz, Nat.sub_self, Nat.and_zero,
          if_neg (fun hc => hv hc.2.1)]
    · have hl1 : x.l4 / 2 ^ 51 = 1 := by omega
      have wz1 : word_is_zero (x.l4 / 2 ^ 51 % 2 ^ 64) = 0 := by
        rw [hl1]; norm_num [word_is_zero]
      rw [wz1, Nat.and_zero, Nat.zero_and, if_neg (fun hc => hl hc.1)]

/-- Full behaviour of `gf_deserialize` on byte inputs: the output limbs hold
exactly the masked little-endian value N, and the returned mask is all-ones
precisely when N is canonical and (unless `with_hibit`) the high bit of N is
clear, else all-zeros. -/
theorem deserialize_spec (s : Bytes) (wh : Bool) (hn : Nat) (hb0 : s.b0 < 2 ^ 8)
    (hb1 : s.b1 < 2 ^ 8) (hb2 : s.b2 < 2 ^ 8) (hb3 : s.b3 < 2 ^ 8)
    (hb4 : s.b4 < 2 ^ 8) (hb5 : s.b5 < 2 ^ 8) (hb6 : s.b6 < 2 ^ 8)
    (hb7 : s.b7 < 2 ^ 8) (hb8 : s.b8 < 2 ^ 8) (hb9 : s.b9 < 2 ^ 8)
    (hb10 : s.b10 < 2 ^ 8) (hb11 : s.b11 < 2 ^ 8) (hb12 : s.b12 < 2 ^ 8)
    (hb13 : s.b13 < 2 ^ 8) (hb14 : s.b14 < 2 ^ 8) (hb15 : s.b15 < 2 ^ 8)
    (hb16 : s.b16 < 2 ^ 8) (hb17 : s.b17 < 2 ^ 8) (hb18 : s.b18 < 2 ^ 8)
    (hb19 : s.b19 < 2 ^ 8) (hb20 : s.b20 < 2 ^ 8) (hb21 : s.b21 < 2 ^ 8)
    (hb22 : s.b22 < 2 ^ 8) (hb23 : s.b23 < 2 ^ 8) (hb24 : s.b24 < 2 ^ 8)
    (hb25 : s.b25 < 2 ^ 8) (hb26 : s.b26 < 2 ^ 8) (hb27 : s.b27 < 2 ^ 8)
    (hb28 : s.b28 < 2 ^ 8) (hb29 : s.b29 < 2 ^ 8) (hb30 : s.b30 < 2 ^ 8) :
    val (gf_deserialize s wh hn).1 = bytesVal (maskTop s hn) ∧
    (gf_deserialize s wh hn).1.l0 < 2 ^ 51 ∧
    (gf_deserialize s wh hn).1.l1 < 2 ^ 51 ∧
    (gf_deserialize s wh hn).1.l2 < 2 ^ 51 ∧
    (gf_deserialize s wh hn).1.l3 < 2 ^ 51 ∧
    (gf_deserialize s wh hn).1.l4 < 2 ^ 52 ∧
    (gf_deserialize s wh hn).2 =
      (if bytesVal (maskTop s hn) < p25519 ∧
          (wh = true ∨ 2 * bytesVal (maskTop s hn) % p25519 % 2 = 0)
       then 2 ^ 64 - 1 else 0) := by
  obtain ⟨hN, hx0, hx1, hx2, hx3, hx4⟩ := deser_limbs_spec s hn hb0 hb1 hb2 hb3
    hb4 hb5 hb6 hb7 hb8 hb9 hb10 hb11 hb12 hb13 hb14 hb15 hb16 hb17 hb18 hb19
    hb20 hb21 hb22 hb23 hb24 hb25 hb26 hb27 hb28 hb29 hb30
  have hmask := deser_mask_spec (deser_limbs s hn) wh hx0 hx1 hx2 hx3 hx4
  have hfst : (gf_deserialize s wh hn).1 = deser_limbs s hn := rfl
  have hsnd : (gf_deserialize s wh hn).2 =
      ((if wh then 2 ^ 64 - 1 else (2 ^ 64 - 1) - gf_hibit (deser_limbs s hn)) &&&
        word_is_zero ((deser_limbs s hn).l4 / 2 ^ 51 % 2 ^ 64) &&&
        ((2 ^ 64 - 1) - word_is_zero ((deser_scarry (deser_limbs s hn) % 2 ^ 64).toNat))) :=
    rfl
  refine ⟨by rw [hfst]; exact hN, by rw [hfst]; exact hx0, by rw [hfst]; exact hx1,
    by rw [hfst]; exact hx2, by rw [hfst]; exact hx3, by rw [hfst]; exact hx4, ?_⟩
  rw [hsnd, hmask, hN]
  have hvx : val (deser_limbs s hn) = (deser_limbs s hn).l0 +
      (deser_limbs s hn).l1 * 2 ^ 51 + (deser_limbs s hn).l2 * 2 ^ 102 +
      (deser_limbs s hn).l3 * 2 ^ 153 + (deser_limbs s hn).l4 * 2 ^ 204 := rfl
  have htop : bytesVal (maskTop s hn) < p25519 → (deser_limbs s hn).l4 / 2 ^ 51 = 0 := by
    intro hlt
    rw [← hN] at hlt
    simp only [p25519] at hlt
    omega
  by_cases hc : bytesVal (maskTop s hn) < p25519 ∧
      (wh = true ∨ 2 * bytesVal (maskTop s hn) % p25519 % 2 = 0)
  · rw [if_pos ⟨htop hc.1, hc.1, hc.2⟩, if_pos hc]
  · rw [if_neg (fun hd => hc ⟨hd.2.1, hd.2.2⟩), if_neg hc]

/-- Sanity check of the embedded constant: SQRT_MINUS_ONE squares to
p - 1 = -1 mod p. -/
theorem sqrt_minus_one_sq : fmul SQRT_MINUS_ONE SQRT_MINUS_ONE = p25519 - 1 := by
  decide

set_option maxRecDepth 16384 in
set_option maxHeartbeats 1600000 in
/-- Sanity check of the addition chain on a nonzero square: 4 = 2² is a
quadratic residue, the returned mask is true, and a²·4 = 1. -/
theorem gf_isr_four :
    (gf_isr 4).2 = true ∧ fmul (fmul (gf_isr 4).1 (gf_isr 4).1) 4 = 1 := by
  refine ⟨by decide, by decide⟩

/-! ### Claim theorems -/

set_option maxRecDepth 16384 in
set_option maxHeartbeats 1600000 in
/-- C1: in the residue model of `gf_isr`, the input x = 0 yields the output
a = 0 but the returned success mask is `false`, while the spec states that
for x = 0 the mask is true.  (The addition chain maps 0 to 0, so L3 = 0,
and the final test `L3 = 1 or L3 + 1 = 0` fails.) -/
theorem gf_isr_at_zero : gf_isr 0 = (0, false) := by decide

/-- C2: for arbitrary 64-bit limb values, `gf_strong_reduce` leaves the unique
canonical representative of the input residue class: the output value equals
the input value mod p = 2^255 - 19, hence lies in [0, p). -/
theorem gf_strong_reduce_correct (a : Gf) (h0 : a.l0 < 2 ^ 64)
    (h1 : a.l1 < 2 ^ 64) (h2 : a.l2 < 2 ^ 64) (h3 : a.l3 < 2 ^ 64)
    (h4 : a.l4 < 2 ^ 64) :
    val (gf_strong_reduce a) = val a % p25519 ∧
    val (gf_strong_reduce a) < p25519 := by
  obtain ⟨hv, -, -, -, -, -⟩ := strong_reduce_spec a h0 h1 h2 h3 h4
  have hp : 0 < p25519 := by simp only [p25519]; omega
  exact ⟨hv, hv ▸ Nat.mod_lt _ hp⟩

/-- C2 witness. -/
theorem gf_strong_reduce_correct_witness :
    val (gf_strong_reduce ⟨2 ^ 63, 2 ^ 64 - 1, 5, 2 ^ 62, 2 ^ 60 + 17⟩) =
      val ⟨2 ^ 63, 2 ^ 64 - 1, 5, 2 ^ 62, 2 ^ 60 + 17⟩ % p25519 ∧
    val (gf_strong_reduce ⟨2 ^ 63, 2 ^ 64 - 1, 5, 2 ^ 62, 2 ^ 60 + 17⟩) < p25519 :=
  gf_strong_reduce_correct ⟨2 ^ 63, 2 ^ 64 - 1, 5, 2 ^ 62, 2 ^ 60 + 17⟩
    (by decide) (by decide) (by decide) (by decide) (by decide)

/-- C4: for arbitrary 64-bit limb values, `gf_weak_reduce` preserves the
represented residue - the value drops by exactly `(l4 / 2^51) · (2^255 - 19)`,
the top carry being folded into limb 0 times 19 - and every output limb is
strictly below 2^52. -/
theorem gf_weak_reduce_correct (a : Gf) (h0 : a.l0 < 2 ^ 64)
    (h1 : a.l1 < 2 ^ 64) (h2 : a.l2 < 2 ^ 64) (h3 : a.l3 < 2 ^ 64)
    (h4 : a.l4 < 2 ^ 64) :
    val (gf_weak_reduce a) + a.l4 / 2 ^ 51 * p25519 = val a ∧
    val (gf_weak_reduce a) % p25519 = val a % p25519 ∧
    (gf_weak_reduce a).l0 < 2 ^ 52 ∧ (gf_weak_reduce a).l1 < 2 ^ 52 ∧
    (gf_weak_reduce a).l2 < 2 ^ 52 ∧ (gf_weak_reduce a).l3 < 2 ^ 52 ∧
    (gf_weak_reduce a).l4 < 2 ^ 52 := by
  obtain ⟨hv, hb0, hb1, hb2, hb3, hb4⟩ := weak_reduce_spec a h0 h1 h2 h3 h4
  refine ⟨hv, ?_, by omega, by omega, by omega, by omega, by omega⟩
  conv_rhs => rw [← hv]
  rw [Nat.add_mul_mod_self_right]

/-- C4 witness. -/
theorem gf_weak_reduce_correct_witness :
    val (gf_weak_reduce ⟨2 ^ 64 - 1, 2 ^ 64 - 1, 2 ^ 64 - 1, 2 ^ 64 - 1, 2 ^ 64 - 1⟩) +
      (2 ^ 64 - 1) / 2 ^ 51 * p25519 =
      val ⟨2 ^ 64 - 1, 2 ^ 64 - 1, 2 ^ 64 - 1, 2 ^ 64 - 1, 2 ^ 64 - 1⟩ ∧
    val (gf_weak_reduce ⟨2 ^ 64 - 1, 2 ^ 64 - 1, 2 ^ 64 - 1, 2 ^ 64 - 1, 2 ^ 64 - 1⟩) % p25519 =
      val ⟨2 ^ 64 - 1, 2 ^ 64 - 1, 2 ^ 64 - 1, 2 ^ 64 - 1, 2 ^ 64 - 1⟩ % p25519 ∧
    (gf_weak_reduce ⟨2 ^ 64 - 1, 2 ^ 64 - 1, 2 ^ 64 - 1, 2 ^ 64 - 1, 2 ^ 64 - 1⟩).l0 < 2 ^ 52 ∧
    (gf_weak_reduce ⟨2 ^ 64 - 1, 2 ^ 64 - 1, 2 ^ 64 - 1, 2 ^ 64 - 1, 2 ^ 64 - 1⟩).l1 < 2 ^ 52 ∧
    (gf_weak_reduce ⟨2 ^ 64 - 1, 2 ^ 64 - 1, 2 ^ 64 - 1, 2 ^ 64 - 1, 2 ^ 64 - 1⟩).l2 < 2 ^ 52 ∧
    (gf_weak_reduce ⟨2 ^ 64 - 1, 2 ^ 64 - 1, 2 ^ 64 - 1, 2 ^ 64 - 1, 2 ^ 64 - 1⟩).l3 < 2 ^ 52 ∧
    (gf_weak_reduce ⟨2 ^ 64 - 1, 2 ^ 64 - 1, 2 ^ 64 - 1, 2 ^ 64 - 1, 2 ^ 64 - 1⟩).l4 < 2 ^ 52 :=
  gf_weak_reduce_correct ⟨2 ^ 64 - 1, 2 ^ 64 - 1, 2 ^ 64 - 1, 2 ^ 64 - 1, 2 ^ 64 - 1⟩
    (by decide) (by decide) (by decide) (by decide) (by decide)

/-- C5: for weakly reduced inputs, `gf_sub` (raw subtraction with the bias 2
of the minuend, then weak reduction) returns d with d ≡ a - b (mod p) and
every limb of d strictly below 2^52; the biased raw subtraction itself is
exact integer arithmetic limb by limb (no limb goes negative / wraps). -/
theorem gf_sub_correct (a b : Gf) (ha0 : a.l0 < 2 ^ 52) (ha1 : a.l1 < 2 ^ 52)
    (ha2 : a.l2 < 2 ^ 52) (ha3 : a.l3 < 2 ^ 52) (ha4 : a.l4 < 2 ^ 52)
    (hb0 : b.l0 < 2 ^ 52) (hb1 : b.l1 < 2 ^ 52) (hb2 : b.l2 < 2 ^ 52)
    (hb3 : b.l3 < 2 ^ 52) (hb4 : b.l4 < 2 ^ 52) :
    (val (gf_sub a b) + val b) % p25519 = val a % p25519 ∧
    (gf_sub a b).l0 < 2 ^ 52 ∧ (gf_sub a b).l1 < 2 ^ 52 ∧
    (gf_sub a b).l2 < 2 ^ 52 ∧ (gf_sub a b).l3 < 2 ^ 52 ∧
    (gf_sub a b).l4 < 2 ^ 52 ∧
    (gf_bias (gf_sub_RAW a b) 2).l0 + b.l0 = a.l0 + (2 ^ 53 - 76) ∧
    (gf_bias (gf_sub_RAW a b) 2).l1 + b.l1 = a.l1 + (2 ^ 53 - 4) ∧
    (gf_bias (gf_sub_RAW a b) 2).l2 + b.l2 = a.l2 + (2 ^ 53 - 4) ∧
    (gf_bias (gf_sub_RAW a b) 2).l3 + b.l3 = a.l3 + (2 ^ 53 - 4) ∧
    (gf_bias (gf_sub_RAW a b) 2).l4 + b.l4 = a.l4 + (2 ^ 53 - 4) := by
  obtain ⟨h0, h1, h2, h3, h4, hv⟩ :=
    sub_spec a b ha0 ha1 ha2 ha3 ha4 hb0 hb1 hb2 hb3 hb4
  obtain ⟨he0, he1, he2, he3, he4⟩ :=
    bias_sub_raw_spec a b ha0 ha1 ha2 ha3 ha4 hb0 hb1 hb2 hb3 hb4
  exact ⟨hv, h0, h1, h2, h3, h4, he0, he1, he2, he3, he4⟩

/-- C5 witness. -/
theorem gf_sub_correct_witness :
    (val (gf_sub ⟨1, 2, 3, 4, 5⟩ ⟨2 ^ 52 - 1, 2 ^ 52 - 1, 0, 7, 2 ^ 51⟩) +
      val ⟨2 ^ 52 - 1, 2 ^ 52 - 1, 0, 7, 2 ^ 51⟩) % p25519 =
      val ⟨1, 2, 3, 4, 5⟩ % p25519 ∧
    (gf_sub ⟨1, 2, 3, 4, 5⟩ ⟨2 ^ 52 - 1, 2 ^ 52 - 1, 0, 7, 2 ^ 51⟩).l0 < 2 ^ 52 ∧
    (gf_sub ⟨1, 2, 3, 4, 5⟩ ⟨2 ^ 52 - 1, 2 ^ 52 - 1, 0, 7, 2 ^ 51⟩).l1 < 2 ^ 52 ∧
    (gf_sub ⟨1, 2, 3, 4, 5⟩ ⟨2 ^ 52 - 1, 2 ^ 52 - 1, 0, 7, 2 ^ 51⟩).l2 < 2 ^ 52 ∧
    (gf_sub ⟨1, 2, 3, 4, 5⟩ ⟨2 ^ 52 - 1, 2 ^ 52 - 1, 0, 7, 2 ^ 51⟩).l3 < 2 ^ 52 ∧
    (gf_sub ⟨1, 2, 3, 4, 5⟩ ⟨2 ^ 52 - 1, 2 ^ 52 - 1, 0, 7, 2 ^ 51⟩).l4 < 2 ^ 52 ∧
    (gf_bias (gf_sub_RAW ⟨1, 2, 3, 4, 5⟩ ⟨2 ^ 52 - 1, 2 ^ 52 - 1, 0, 7, 2 ^ 51⟩) 2).l0 +
      (⟨2 ^ 52 - 1, 2 ^ 52 - 1, 0, 7, 2 ^ 51⟩ : Gf).l0 =
      (⟨1, 2, 3, 4, 5⟩ : Gf).l0 + (2 ^ 53 - 76) ∧
    (gf_bias (gf_sub_RAW ⟨1, 2, 3, 4, 5⟩ ⟨2 ^ 52 - 1, 2 ^ 52 - 1, 0, 7, 2 ^ 51⟩) 2).l1 +
      (⟨2 ^ 52 - 1, 2 ^ 52 - 1, 0, 7, 2 ^ 51⟩ : Gf).l1 =
      (⟨1, 2, 3, 4, 5⟩ : Gf).l1 + (2 ^ 53 - 4) ∧
    (gf_bias (gf_sub_RAW ⟨1, 2, 3, 4, 5⟩ ⟨2 ^ 52 - 1, 2 ^ 52 - 1, 0, 7, 2 ^ 51⟩) 2).l2 +
      (⟨2 ^ 52 - 1, 2 ^ 52 - 1, 0, 7, 2 ^ 51⟩ : Gf).l2 =
      (⟨1, 2, 3, 4, 5⟩ : Gf).l2 + (2 ^ 53 - 4) ∧
    (gf_bias (gf_sub_RAW ⟨1, 2, 3, 4, 5⟩ ⟨2 ^ 52 - 1, 2 ^ 52 - 1, 0, 7, 2 ^ 51⟩) 2).l3 +
      (⟨2 ^ 52 - 1, 2 ^ 52 - 1, 0, 7, 2 ^ 51⟩ : Gf).l3 =
      (⟨1, 2, 3, 4, 5⟩ : Gf).l3 + (2 ^ 53 - 4) ∧
    (gf_bias (gf_sub_RAW ⟨1, 2, 3, 4, 5⟩ ⟨2 ^ 52 - 1, 2 ^ 52 - 1, 0, 7, 2 ^ 51⟩) 2).l4 +
      (⟨2 ^ 52 - 1, 2 ^ 52 - 1, 0, 7, 2 ^ 51⟩ : Gf).l4 =
      (⟨1, 2, 3, 4, 5⟩ : Gf).l4 + (2 ^ 53 - 4) :=
  gf_sub_correct ⟨1, 2, 3, 4, 5⟩ ⟨2 ^ 52 - 1, 2 ^ 52 - 1, 0, 7, 2 ^ 51⟩
    (by decide) (by decide) (by decide) (by decide) (by decide)
    (by decide) (by decide) (by decide) (by decide) (by decide)

/-- C6: for weakly reduced inputs, `gf_eq` returns the all-ones mask exactly
when a and b represent the same residue mod p, and the all-zeros mask
otherwise. -/
theorem gf_eq_correct (a b : Gf) (ha0 : a.l0 < 2 ^ 52) (ha1 : a.l1 < 2 ^ 52)
    (ha2 : a.l2 < 2 ^ 52) (ha3 : a.l3 < 2 ^ 52) (ha4 : a.l4 < 2 ^ 52)
    (hb0 : b.l0 < 2 ^ 52) (hb1 : b.l1 < 2 ^ 52) (hb2 : b.l2 < 2 ^ 52)
    (hb3 : b.l3 < 2 ^ 52) (hb4 : b.l4 < 2 ^ 52) :
    gf_eq a b = if val a % p25519 = val b % p25519 then 2 ^ 64 - 1 else 0 :=
  eq_spec a b ha0 ha1 ha2 ha3 ha4 hb0 hb1 hb2 hb3 hb4

/-- C6 witness. -/
theorem gf_eq_correct_witness :
    gf_eq ⟨19, 0, 0, 0, 2 ^ 51⟩ ⟨0, 0, 0, 0, 0⟩ =
      (if val ⟨19, 0, 0, 0, 2 ^ 51⟩ % p25519 = val ⟨0, 0, 0, 0, 0⟩ % p25519
       then 2 ^ 64 - 1 else 0) :=
  gf_eq_correct ⟨19, 0, 0, 0, 2 ^ 51⟩ ⟨0, 0, 0, 0, 0⟩
    (by decide) (by decide) (by decide) (by decide) (by decide)
    (by decide) (by decide) (by decide) (by decide) (by decide)

/-- C7: for weakly reduced inputs, `gf_hibit` is the all-ones mask exactly
when the low bit of the canonical representative of 2·x is 1, and `gf_lobit`
is the all-ones mask exactly when the low bit of the canonical representative
of x is 1 (all-zeros otherwise). -/
theorem gf_hibit_lobit_correct (x : Gf) (h0 : x.l0 < 2 ^ 52)
    (h1 : x.l1 < 2 ^ 52) (h2 : x.l2 < 2 ^ 52) (h3 : x.l3 < 2 ^ 52)
    (h4 : x.l4 < 2 ^ 52) :
    gf_hibit x = (if 2 * val x % p25519 % 2 = 1 then 2 ^ 64 - 1 else 0) ∧
    gf_lobit x = (if val x % p25519 % 2 = 1 then 2 ^ 64 - 1 else 0) :=
  ⟨hibit_spec x h0 h1 h2 h3 h4, lobit_spec x h0 h1 h2 h3 h4⟩

/-- C7 witness. -/
theorem gf_hibit_lobit_correct_witness :
    (gf_hibit ⟨2 ^ 51 - 10, 2 ^ 51 - 1, 2 ^ 51 - 1, 2 ^ 51 - 1, 2 ^ 51 - 1⟩ =
      (if 2 * val ⟨2 ^ 51 - 10, 2 ^ 51 - 1, 2 ^ 51 - 1, 2 ^ 51 - 1, 2 ^ 51 - 1⟩ %
          p25519 % 2 = 1 then 2 ^ 64 - 1 else 0)) ∧
    gf_lobit ⟨2 ^ 51 - 10, 2 ^ 51 - 1, 2 ^ 51 - 1, 2 ^ 51 - 1, 2 ^ 51 - 1⟩ =
      (if val ⟨2 ^ 51 - 10, 2 ^ 51 - 1, 2 ^ 51 - 1, 2 ^ 51 - 1, 2 ^ 51 - 1⟩ %
          p25519 % 2 = 1 then 2 ^ 64 - 1 else 0) :=
  gf_hibit_lobit_correct ⟨2 ^ 51 - 10, 2 ^ 51 - 1, 2 ^ 51 - 1, 2 ^ 51 - 1, 2 ^ 51 - 1⟩
    (by decide) (by decide) (by decide) (by decide) (by decide)

/-- C8: `RISTRETTO_SUCCESS` is the all-ones word (-1 truncated to 64 bits),
`RISTRETTO_FAILURE` is the all-zeros word, and `ristretto_successful` maps
`RISTRETTO_SUCCESS` to the all-ones mask and `RISTRETTO_FAILURE` to the
all-zeros mask. -/
theorem ristretto_successful_correct :
    wordOfInt RISTRETTO_SUCCESS = 2 ^ 64 - 1 ∧ wordOfInt RISTRETTO_FAILURE = 0 ∧
    ristretto_successful RISTRETTO_SUCCESS = 2 ^ 64 - 1 ∧
    ristretto_successful RISTRETTO_FAILURE = 0 := by
  refine ⟨by decide, by decide, ?_, ?_⟩ <;> decide

set_option maxHeartbeats 1600000 in
/-- C9: when no limb addition overflows 64 bits, `gf_bias(a, amt)` increases
the represented integer value by exactly amt·(2^256 - 38) = 2·amt·p, so the
residue mod p is unchanged. -/
theorem gf_bias_correct (a : Gf) (amt : Nat)
    (h0 : a.l0 + amt * (2 ^ 52 - 38) < 2 ^ 64)
    (h1 : a.l1 + amt * (2 ^ 52 - 2) < 2 ^ 64)
    (h2 : a.l2 + amt * (2 ^ 52 - 2) < 2 ^ 64)
    (h3 : a.l3 + amt * (2 ^ 52 - 2) < 2 ^ 64)
    (h4 : a.l4 + amt * (2 ^ 52 - 2) < 2 ^ 64) :
    val (gf_bias a amt) = val a + amt * (2 ^ 256 - 38) ∧
    val (gf_bias a amt) % p25519 = val a % p25519 := by
  have hamt : amt ≤ 4096 := by omega
  have hc0 : (amt * 2 ^ 52 % 2 ^ 64 + (2 ^ 64 - 38 * amt % 2 ^ 64)) % 2 ^ 64 =
      amt * (2 ^ 52 - 38) := by omega
  have hci : (amt * 2 ^ 52 % 2 ^ 64 + (2 ^ 64 - 2 * amt % 2 ^ 64)) % 2 ^ 64 =
      amt * (2 ^ 52 - 2) := by omega
  have hv : val (gf_bias a amt) = val a + amt * (2 ^ 256 - 38) := by
    simp only [gf_bias, val, hc0, hci]
    omega
  refine ⟨hv, ?_⟩
  rw [hv, show amt * (2 ^ 256 - 38) = 2 * amt * p25519 from by
    simp only [p25519]; omega, Nat.add_mul_mod_self_right]

/-- C9 witness. -/
theorem gf_bias_correct_witness :
    val (gf_bias ⟨5, 4, 3, 2, 1⟩ 7) = val ⟨5, 4, 3, 2, 1⟩ + 7 * (2 ^ 256 - 38) ∧
    val (gf_bias ⟨5, 4, 3, 2, 1⟩ 7) % p25519 = val ⟨5, 4, 3, 2, 1⟩ % p25519 :=
  gf_bias_correct ⟨5, 4, 3, 2, 1⟩ 7
    (by decide) (by decide) (by decide) (by decide) (by decide)

/-- The 32-byte little-endian encoding of p - 1 = 2^255 - 20. -/
def serialPm1 : Bytes :=
  ⟨0xec, 0xff, 0xff, 0xff, 0xff, 0xff, 0xff, 0xff, 0xff, 0xff, 0xff, 0xff,
   0xff, 0xff, 0xff, 0xff, 0xff, 0xff, 0xff, 0xff, 0xff, 0xff, 0xff, 0xff,
   0xff, 0xff, 0xff, 0xff, 0xff, 0xff, 0xff, 0x7f⟩

set_option maxRecDepth 16384 in
set_option maxHeartbeats 1600000 in
/-- C3 (counterexample): with `with_hibit = 0` and `hi_nmask = 0`, the bytes
of p - 1 have masked little-endian value strictly below p, yet
`gf_deserialize` returns the all-zeros mask (because the extra
`~gf_hibit` condition fails: 2·(p-1) mod p = p - 2 is odd), refuting the
claim that the mask is all-ones whenever the value is below p. -/
theorem gf_deserialize_claim_counterexample :
    bytesVal (maskTop serialPm1 0) < p25519 ∧
    (gf_deserialize serialPm1 false 0).2 = 0 := by
  refine ⟨by decide, by decide⟩

/-- C3 (amended): for every 32-byte input, `with_hibit` flag and `hi_nmask`,
`gf_deserialize` returns the all-ones mask exactly when the masked
little-endian value N is strictly below p AND (`with_hibit` is set or the low
bit of 2·N mod p is 0); otherwise it returns the all-zeros mask; and the
output limbs hold exactly the value N. -/
theorem gf_deserialize_correct (s : Bytes) (wh : Bool) (hn : Nat)
    (hb0 : s.b0 < 2 ^ 8) (hb1 : s.b1 < 2 ^ 8) (hb2 : s.b2 < 2 ^ 8)
    (hb3 : s.b3 < 2 ^ 8) (hb4 : s.b4 < 2 ^ 8) (hb5 : s.b5 < 2 ^ 8)
    (hb6 : s.b6 < 2 ^ 8) (hb7 : s.b7 < 2 ^ 8) (hb8 : s.b8 < 2 ^ 8)
    (hb9 : s.b9 < 2 ^ 8) (hb10 : s.b10 < 2 ^ 8) (hb11 : s.b11 < 2 ^ 8)
    (hb12 : s.b12 < 2 ^ 8) (hb13 : s.b13 < 2 ^ 8) (hb14 : s.b14 < 2 ^ 8)
    (hb15 : s.b15 < 2 ^ 8) (hb16 : s.b16 < 2 ^ 8) (hb17 : s.b17 < 2 ^ 8)
    (hb18 : s.b18 < 2 ^ 8) (hb19 : s.b19 < 2 ^ 8) (hb20 : s.b20 < 2 ^ 8)
    (hb21 : s.b21 < 2 ^ 8) (hb22 : s.b22 < 2 ^ 8) (hb23 : s.b23 < 2 ^ 8)
    (hb24 : s.b24 < 2 ^ 8) (hb25 : s.b25 < 2 ^ 8) (hb26 : s.b26 < 2 ^ 8)
    (hb27 : s.b27 < 2 ^ 8) (hb28 : s.b28 < 2 ^ 8) (hb29 : s.b29 < 2 ^ 8)
    (hb30 : s.b30 < 2 ^ 8) :
    ((gf_deserialize s wh hn).2 =
      if bytesVal (maskTop s hn) < p25519 ∧
          (wh = true ∨ 2 * bytesVal (maskTop s hn) % p25519 % 2 = 0)
      then 2 ^ 64 - 1 else 0) ∧
    val (gf_deserialize s wh hn).1 = bytesVal (maskTop s hn) := by
  obtain ⟨hN, -, -, -, -, -, hres⟩ := deserialize_spec s wh hn hb0 hb1 hb2 hb3
    hb4 hb5 hb6 hb7 hb8 hb9 hb10 hb11 hb12 hb13 hb14 hb15 hb16 hb17 hb18 hb19
    hb20 hb21 hb22 hb23 hb24 hb25 hb26 hb27 hb28 hb29 hb30
  exact ⟨hres, hN⟩

/-- C3 witness. -/
theorem gf_deserialize_correct_witness :
    (gf_deserialize ⟨3, 0, 0, 0, 0, 0, 0, 0, 0, 0, 0, 0, 0, 0, 0, 0, 0, 0, 0,
        0, 0, 0, 0, 0, 0, 0, 0, 0, 0, 0, 0, 0⟩ false 0).2 = 2 ^ 64 - 1 ∧
    val (gf_deserialize ⟨3, 0, 0, 0, 0, 0, 0, 0, 0, 0, 0, 0, 0, 0, 0, 0, 0, 0,
        0, 0, 0, 0, 0, 0, 0, 0, 0, 0, 0, 0, 0, 0⟩ false 0).1 = 3 :=
  ⟨((gf_deserialize_correct ⟨3, 0, 0, 0, 0, 0, 0, 0, 0, 0, 0, 0, 0, 0, 0, 0,
      0, 0, 0, 0, 0, 0, 0, 0, 0, 0, 0, 0, 0, 0, 0, 0⟩ false 0
      (by decide) (by decide) (by decide) (by decide) (by decide) (by decide)
      (by decide) (by decide) (by decide) (by decide) (by decide) (by decide)
      (by decide) (by decide) (by decide) (by decide) (by decide) (by decide)
      (by decide) (by decide) (by decide) (by decide) (by decide) (by decide)
      (by decide) (by decide) (by decide) (by decide) (by decide) (by decide)
      (by decide)).1).trans (by decide),
   ((gf_deserialize_correct ⟨3, 0, 0, 0, 0, 0, 0, 0, 0, 0, 0, 0, 0, 0, 0, 0,
      0, 0, 0, 0, 0, 0, 0, 0, 0, 0, 0, 0, 0, 0, 0, 0⟩ false 0
      (by decide) (by decide) (by decide) (by decide) (by decide) (by decide)
      (by decide) (by decide) (by decide) (by decide) (by decide) (by decide)
      (by decide) (by decide) (by decide) (by decide) (by decide) (by decide)
      (by decide) (by decide) (by decide) (by decide) (by decide) (by decide)
      (by decide) (by decide) (by decide) (by decide) (by decide) (by decide)
      (by decide)).2).trans (by decide)⟩

/-- C10: serialize/deserialize round trip at the field layer: for weakly
reduced x, deserializing `gf_serialize(x, with_hibit = 1)` with
`with_hibit = 1` and `hi_nmask = 0` returns the all-ones success mask, the
recovered element is the canonical representative of x, and `gf_eq` confirms
it represents the same residue as x. -/
theorem gf_serialize_deserialize_roundtrip (x : Gf) (h0 : x.l0 < 2 ^ 52)
    (h1 : x.l1 < 2 ^ 52) (h2 : x.l2 < 2 ^ 52) (h3 : x.l3 < 2 ^ 52)
    (h4 : x.l4 < 2 ^ 52) :
    (gf_deserialize (gf_serialize x true) true 0).2 = 2 ^ 64 - 1 ∧
    val (gf_deserialize (gf_serialize x true) true 0).1 = val x % p25519 ∧
    gf_eq (gf_deserialize (gf_serialize x true) true 0).1 x = 2 ^ 64 - 1 := by
  obtain ⟨hsv, hs0, hs1, hs2, hs3, hs4⟩ :=
    strong_reduce_spec x (by omega) (by omega) (by omega) (by omega) (by omega)
  obtain ⟨hpv, hp0, hp1, hp2, hp3, hp4, hp5, hp6, hp7, hp8, hp9, hp10, hp11,
    hp12, hp13, hp14, hp15, hp16, hp17, hp18, hp19, hp20, hp21, hp22, hp23,
    hp24, hp25, hp26, hp27, hp28, hp29, hp30, hp31⟩ :=
    pack_spec (gf_strong_reduce x) hs0 hs1 hs2 hs3 hs4
  have hser : gf_serialize x true = pack (gf_strong_reduce x) := rfl
  rw [hser]
  set s := pack (gf_strong_reduce x) with hsdef
  obtain ⟨hN, hy0, hy1, hy2, hy3, hy4, hres⟩ := deserialize_spec s true 0 hp0
    hp1 hp2 hp3 hp4 hp5 hp6 hp7 hp8 hp9 hp10 hp11 hp12 hp13 hp14 hp15 hp16
    hp17 hp18 hp19 hp20 hp21 hp22 hp23 hp24 hp25 hp26 hp27 hp28 hp29 hp30
  have hmb : bytesVal (maskTop s 0) = bytesVal s := by
    simp only [maskTop, bytesVal]
    rw [Nat.sub_zero, Nat.and_pow_two_sub_one_eq_mod, Nat.mod_eq_of_lt hp31]
  have hp_pos : 0 < p25519 := by simp only [p25519]; omega
  have hNv : bytesVal (maskTop s 0) = val x % p25519 := by rw [hmb, hpv, hsv]
  have hNlt : bytesVal (maskTop s 0) < p25519 := by
    rw [hNv]; exact Nat.mod_lt _ hp_pos
  refine ⟨by rw [hres, if_pos ⟨hNlt, Or.inl rfl⟩], by rw [hN, hNv], ?_⟩
  have heq := eq_spec (gf_deserialize s true 0).1 x (by omega) (by omega)
    (by omega) (by omega) (by omega) h0 h1 h2 h3 h4
  have hmods : val (gf_deserialize s true 0).1 % p25519 = val x % p25519 := by
    rw [hN, hNv]
    simp only [p25519]
    omega
  rw [heq, if_pos hmods]

/-- C10 witness. -/
theorem gf_serialize_deserialize_roundtrip_witness :
    (gf_deserialize (gf_serialize ⟨1, 2, 3, 4, 5⟩ true) true 0).2 = 2 ^ 64 - 1 ∧
    val (gf_deserialize (gf_serialize ⟨1, 2, 3, 4, 5⟩ true) true 0).1 =
      val ⟨1, 2, 3, 4, 5⟩ % p25519 ∧
    gf_eq (gf_deserialize (gf_serialize ⟨1, 2, 3, 4, 5⟩ true) true 0).1
      ⟨1, 2, 3, 4, 5⟩ = 2 ^ 64 - 1 :=
  gf_serialize_deserialize_roundtrip ⟨1, 2, 3, 4, 5⟩
    (by decide) (by decide) (by decide) (by decide) (by decide)

end Ristretto255
